import Mathlib

/-!
Shallow embedding of `photorename` (src/main.go) and verification of the
spec's claims about its planning algorithm.

Modelling conventions:
* Strings are directory-relative file names; all names occurring in the
  program are ASCII, so Go's byte-indexed slicing coincides with the
  `List Char` view used here.
* A Go `time.Time` is modelled by its wall-clock fields plus the zone
  information the parser attached; `Format(dateTimeLayout)` only reads the
  wall-clock fields.  Go zero-pads each clock field to the layout's width;
  fields of a parsed `time.Time` are always below the relevant modulus, so
  the digit extraction via `/` and `%` below agrees with Go.
* The `StringSet` Go map is modelled as a duplicate-free list: only
  membership and size are ever observed, and `setAdd` mirrors the
  idempotent map insertion.
* The external `exiftool` invocation is an input to the model
  (`ExifProcResult`): the process can fail (non-zero exit / exec error),
  return non-JSON output, or return a JSON array of records each with an
  optional `CreateDate` string — exactly the cases `getPhotoDateTime`
  distinguishes.
* Go `panic` / `log.Fatalf` (whole-run aborts) are modelled by `none` /
  explicit abort flags.
-/

namespace Photorename

/-- ASCII digit character for the value `n % 10`; Go prints clock fields with
zero-padded decimal digits. -/
def digitChar (n : Nat) : Char := Char.ofNat (48 + n % 10)

/-- Zone information carried by a parsed `time.Time`: a fixed offset (from the
explicit-offset grammar) or the host's local zone (from `ParseInLocation`). -/
inductive TimeZoneInfo where
  | fixedOffset (minutes : Int)
  | localZone
deriving DecidableEq

/-- Wall-clock capture timestamp of a photo (the fields `Format` reads),
plus the zone attached by the parser. -/
structure Timestamp where
  year : Nat
  month : Nat
  day : Nat
  hour : Nat
  minute : Nat
  second : Nat
  zone : TimeZoneInfo
deriving DecidableEq

/-- `t.Format("2006-01-02_15-04-05")`: the canonical date-time stem. -/
def formatDateTime (t : Timestamp) : String :=
  ⟨[digitChar (t.year / 1000), digitChar (t.year / 100), digitChar (t.year / 10),
    digitChar t.year, '-',
    digitChar (t.month / 10), digitChar t.month, '-',
    digitChar (t.day / 10), digitChar t.day, '_',
    digitChar (t.hour / 10), digitChar t.hour, '-',
    digitChar (t.minute / 10), digitChar t.minute, '-',
    digitChar (t.second / 10), digitChar t.second]⟩

/-- Extension of a file name as computed by Go's `filepath.Ext` / `path.Ext`:
the suffix starting at the final dot of the final slash-separated element,
empty if there is no dot. -/
def extOf : List Char → List Char
  | [] => []
  | c :: rest =>
    let r := extOf rest
    if r = [] then (if c = '.' ∧ '/' ∉ rest then c :: rest else []) else r

/-- `getExtension` from src/main.go (a wrapper over `filepath.Ext`). -/
def getExtension (filename : String) : String := ⟨extOf filename.data⟩

/-- `getNameWithoutExtension` from src/main.go: `filename[0 : len - len(ext)]`. -/
def getNameWithoutExtension (filename : String) : String :=
  ⟨filename.data.take (filename.data.length - (extOf filename.data).length)⟩

/-- The fixed sidecar extension, `metadataExtension = "xmp"`. -/
def metadataExtension : String := "xmp"

/-- The picture-extension whitelist from src/main.go. -/
def pictureExtensionsWhitelist : List String := [".jpeg", ".jpg", ".cr2", ".cr3"]

/-- `strings.ToLower` (ASCII-relevant part). -/
def toLowerStr (s : String) : String := ⟨s.data.map Char.toLower⟩

/-- `isPictureFile` from src/main.go: lower-cased extension is whitelisted. -/
def isPictureFile (filename : String) : Bool :=
  pictureExtensionsWhitelist.contains (toLowerStr (getExtension filename))

/-- The `PhotoRename` plan-entry struct; `RenamedFilename` is Go's zero value
`""` until the collision resolver assigns it. -/
structure PhotoRename where
  OriginalFilename : String
  PhotoCaptureTime : Timestamp
  RenamedFilename : String := ""
deriving DecidableEq

/-- `PhotoRename.GetFormattedDateTime`. -/
def PhotoRename.GetFormattedDateTime (p : PhotoRename) : String :=
  formatDateTime p.PhotoCaptureTime

/-- `strings.TrimRight(s, "-")`: remove all trailing duplicate-suffix dashes. -/
def trimRightDashes (s : String) : String :=
  ⟨(s.data.reverse.dropWhile (fun c => c = '-')).reverse⟩

/-- `PhotoRename.IsAlreadyFormatted`: strip the extension, strip trailing
dashes, compare with the formatted capture time. -/
def PhotoRename.IsAlreadyFormatted (p : PhotoRename) : Bool :=
  if p.GetFormattedDateTime = trimRightDashes (getNameWithoutExtension p.OriginalFilename)
  then true else false

/-- `PhotoRename.GetFormattedFilename`: date-time stem, `duplicateSuffixes`
dashes, original extension. -/
def PhotoRename.GetFormattedFilename (p : PhotoRename) (duplicateSuffixes : Nat) : String :=
  p.GetFormattedDateTime ++ ⟨List.replicate duplicateSuffixes '-'⟩
    ++ getExtension p.OriginalFilename

/-- The spec's `format(timestamp, extension, collisionIndex)` — the same
computation as `GetFormattedFilename`, with the extension passed directly. -/
def formatName (t : Timestamp) (ext : String) (k : Nat) : String :=
  formatDateTime t ++ ⟨List.replicate k '-'⟩ ++ ext

/-- Numeric value of an ASCII digit character. -/
def digitVal (c : Char) : Nat := c.toNat - 48

/-- Gregorian leap-year rule used by Go's date validation. -/
def isLeapYear (y : Nat) : Bool := y % 4 == 0 && (y % 100 != 0 || y % 400 == 0)

/-- Days in a month, as validated by Go's `time.Parse`. -/
def daysInMonth (y m : Nat) : Nat :=
  if m = 2 then (if isLeapYear y then 29 else 28)
  else if m = 4 ∨ m = 6 ∨ m = 9 ∨ m = 11 then 30 else 31

/-- Shared date-time part of both grammars: exactly
`YYYY:MM:DD HH:MM:SS` with Go's field range validation. -/
def parseBaseFields : List Char → Option (Nat × Nat × Nat × Nat × Nat × Nat)
  | [y1, y2, y3, y4, ':', mo1, mo2, ':', d1, d2, ' ', h1, h2, ':', mi1, mi2, ':', s1, s2] =>
    if y1.isDigit ∧ y2.isDigit ∧ y3.isDigit ∧ y4.isDigit ∧ mo1.isDigit ∧ mo2.isDigit ∧
       d1.isDigit ∧ d2.isDigit ∧ h1.isDigit ∧ h2.isDigit ∧ mi1.isDigit ∧ mi2.isDigit ∧
       s1.isDigit ∧ s2.isDigit then
      let y := digitVal y1 * 1000 + digitVal y2 * 100 + digitVal y3 * 10 + digitVal y4
      let mo := digitVal mo1 * 10 + digitVal mo2
      let d := digitVal d1 * 10 + digitVal d2
      let h := digitVal h1 * 10 + digitVal h2
      let mi := digitVal mi1 * 10 + digitVal mi2
      let se := digitVal s1 * 10 + digitVal s2
      if 1 ≤ mo ∧ mo ≤ 12 ∧ 1 ≤ d ∧ d ≤ daysInMonth y mo ∧ h ≤ 23 ∧ mi ≤ 59 ∧ se ≤ 59
      then some (y, mo, d, h, mi, se) else none
    else none
  | _ => none

/-- First grammar, `time.Parse("2006:01:02 15:04:05-07:00", s)`: explicit
numeric offset; the whole string must be consumed. -/
def parseDateTimeOffset (s : String) : Option Timestamp :=
  match parseBaseFields (s.data.take 19), s.data.drop 19 with
  | some (y, mo, d, h, mi, se), [sg, o1, o2, ':', o3, o4] =>
    if (sg = '+' ∨ sg = '-') ∧ o1.isDigit ∧ o2.isDigit ∧ o3.isDigit ∧ o4.isDigit then
      let om : Int := (digitVal o1 * 10 + digitVal o2) * 60 + (digitVal o3 * 10 + digitVal o4)
      some { year := y, month := mo, day := d, hour := h, minute := mi, second := se,
             zone := TimeZoneInfo.fixedOffset (if sg = '-' then -om else om) }
    else none
  | _, _ => none

/-- Second grammar, `time.ParseInLocation("2006:01:02 15:04:05", s, time.Local)`:
no offset, interpreted in the local zone. -/
def parseDateTimeLocal (s : String) : Option Timestamp :=
  match parseBaseFields s.data with
  | some (y, mo, d, h, mi, se) =>
    some { year := y, month := mo, day := d, hour := h, minute := mi, second := se,
           zone := TimeZoneInfo.localZone }
  | none => none

/-- `tryParseDateTime`: the parser functions in priority order, first success
wins. -/
def tryParseDateTime (createDate : String) : Option Timestamp :=
  match parseDateTimeOffset createDate with
  | some t => some t
  | none => parseDateTimeLocal createDate

/-- Observable result of running `exiftool` on one file: the process itself
can fail (exec error or non-zero exit status), its output can fail to
unmarshal as JSON, or it yields a JSON array of records whose `CreateDate`
fields may be absent. -/
inductive ExifProcResult where
  | cmdError
  | malformedJson
  | records (data : List (Option String))
deriving DecidableEq

/-- Result of `getPhotoDateTime`: the function can abort the whole run
(`checkErr`), return a recoverable error, or return a parsed timestamp. -/
inductive DateTimeResult where
  | fatal
  | recoverable
  | ok (t : Timestamp)
deriving DecidableEq

/-- `getPhotoDateTime` from src/main.go: `checkErr` (whole-run abort) on a
command error or unmarshalling error; a recoverable error when the record
list is empty, `CreateDate` is absent, or the date string parses with
neither grammar. -/
def getPhotoDateTime : ExifProcResult → DateTimeResult
  | ExifProcResult.cmdError => DateTimeResult.fatal
  | ExifProcResult.malformedJson => DateTimeResult.fatal
  | ExifProcResult.records [] => DateTimeResult.recoverable
  | ExifProcResult.records (none :: _) => DateTimeResult.recoverable
  | ExifProcResult.records (some cd :: _) =>
    match tryParseDateTime cd with
    | some dt => DateTimeResult.ok dt
    | none => DateTimeResult.recoverable

/-- `StringSet.Contains`, on the list model of the Go map. -/
def containsStr : List String → String → Bool
  | [], _ => false
  | x :: xs, s => if x = s then true else containsStr xs s

/-- `StringSet.Add`: idempotent insertion (a Go map keyed by the string). -/
def setAdd (S : List String) (s : String) : List String :=
  if containsStr S s then S else S ++ [s]

/-- One directory entry together with the outcome the external metadata
extractor would produce for it (consulted only for picture files). -/
structure DirFile where
  name : String
  exif : ExifProcResult
deriving DecidableEq

/-- One iteration of the classification loop (src/main.go lines 188-211):
non-pictures are skipped; a metadata failure reserves the original name;
an already-canonical photo reserves the original name; otherwise a pending
rename entry is appended.  `none` models the whole-run abort from
`checkErr` inside `getPhotoDateTime`. -/
def classifyStep (S : List String) (rs : List PhotoRename) (f : DirFile) :
    Option (List String × List PhotoRename) :=
  if isPictureFile f.name then
    match getPhotoDateTime f.exif with
    | DateTimeResult.fatal => none
    | DateTimeResult.recoverable => some (setAdd S f.name, rs)
    | DateTimeResult.ok t =>
      let p : PhotoRename := { OriginalFilename := f.name, PhotoCaptureTime := t }
      if p.IsAlreadyFormatted then some (setAdd S f.name, rs)
      else some (S, rs ++ [p])
  else some (S, rs)

/-- The classification loop over the (sorted) directory listing. -/
def classifyAll (S : List String) (rs : List PhotoRename) :
    List DirFile → Option (List String × List PhotoRename)
  | [] => some (S, rs)
  | f :: rest =>
    match classifyStep S rs f with
    | none => none
    | some (S', rs') => classifyAll S' rs' rest

/-- Classification of a directory listing starting from the empty
`finalFilenames` set and empty `fileRenames` list. -/
def classify (files : List DirFile) : Option (List String × List PhotoRename) :=
  classifyAll [] [] files

/-- Length of the longest name in the reserved set (used only to bound the
collision-search loop, which in Go is an unbounded `for`). -/
def maxLen : List String → Nat
  | [] => 0
  | x :: xs => max x.length (maxLen xs)

/-- The inner collision loop of src/main.go lines 214-225: try duplicate
counts `k, k+1, ...` until the formatted name is not reserved.  The Go loop
is unbounded; here it carries fuel, and `findDupeCount_ex` below shows the
fuel `maxLen S + 2` used by `resolveOne` always suffices. -/
def findDupeCount (S : List String) (p : PhotoRename) (k : Nat) : Nat → Option Nat
  | 0 => none
  | fuel + 1 =>
    if containsStr S (p.GetFormattedFilename k) then findDupeCount S p (k + 1) fuel
    else some k

/-- Resolve one pending entry: find the first free duplicate count, reserve
the formatted name, assign it.  (The `none` fuel branch is provably never
taken.) -/
def resolveOne (S : List String) (p : PhotoRename) : List String × PhotoRename :=
  match findDupeCount S p 0 (maxLen S + 2) with
  | some k =>
    let n := p.GetFormattedFilename k
    (setAdd S n, { p with RenamedFilename := n })
  | none => (S, p)

/-- The collision-resolution loop (src/main.go lines 213-226), in discovery
order. -/
def resolveAll (S : List String) : List PhotoRename → List String × List PhotoRename
  | [] => (S, [])
  | p :: rest =>
    let q := resolveOne S p
    let r := resolveAll q.1 rest
    (r.1, q.2 :: r.2)

/-- `fmt.Sprintf("%s.%s", getNameWithoutExtension(name), metadataExtension)`. -/
def metadataNameFor (filename : String) : String :=
  getNameWithoutExtension filename ++ "." ++ metadataExtension

/-- The sidecar/metadata extension loop (src/main.go lines 228-248): for each
resolved photo rename whose sidecar exists on disk, plan the lockstep
sidecar rename; `none` models the `log.Fatalf` abort when the target
sidecar name already exists on disk. -/
def sidecarLoop (diskFiles : List String) : List PhotoRename → Option (List PhotoRename)
  | [] => some []
  | p :: rest =>
    let metadataFilename := metadataNameFor p.OriginalFilename
    if containsStr diskFiles metadataFilename then
      let newMetadataFilename := metadataNameFor p.RenamedFilename
      if containsStr diskFiles newMetadataFilename then none
      else
        match sidecarLoop diskFiles rest with
        | none => none
        | some ms =>
          some ({ OriginalFilename := metadataFilename,
                  PhotoCaptureTime := p.PhotoCaptureTime,
                  RenamedFilename := newMetadataFilename } :: ms)
    else sidecarLoop diskFiles rest

/-- The whole planning pass of `main`: classification, collision resolution,
sidecar extension, and the final `append`.  `none` models any whole-run
abort during planning. -/
def buildPlan (files : List DirFile) : Option (List String × List PhotoRename) :=
  match classify files with
  | none => none
  | some (S, rs) =>
    let res := resolveAll S rs
    match sidecarLoop (files.map DirFile.name) res.2 with
    | none => none
    | some ms => some (res.1, res.2 ++ ms)

/-- Executor log lines (paths are directory-relative here). -/
inductive LogEvent where
  | dryRunLog (oldPath newPath : String)
  | renameLog (oldPath newPath : String)
deriving DecidableEq

/-- Effect of a successful `os.Rename` on the directory contents. -/
def applyRename (fs : List String) (oldName newName : String) : List String :=
  newName :: fs.erase oldName

/-- The execution loop (src/main.go lines 250-255) plus `processRename`
(lines 272-290): abort on an empty assigned name or when the target already
exists on disk; in dry-run mode only log; otherwise log and rename.
`renameFails old new = true` models `os.Rename` returning an error — note
that, exactly as in the source (line 288 assigns the error to `err` and
never checks it), a failing rename changes nothing and the loop continues.
Result: (log events, final directory contents, whether the run aborted). -/
def execPlan (dryRun : Bool) (renameFails : String → String → Bool) (fs : List String) :
    List PhotoRename → List LogEvent × List String × Bool
  | [] => ([], fs, false)
  | p :: rest =>
    if p.RenamedFilename.length = 0 then ([], fs, true)
    else if containsStr fs p.RenamedFilename then ([], fs, true)
    else if dryRun then
      let r := execPlan dryRun renameFails fs rest
      (LogEvent.dryRunLog p.OriginalFilename p.RenamedFilename :: r.1, r.2.1, r.2.2)
    else
      let fs2 := if renameFails p.OriginalFilename p.RenamedFilename then fs
                 else applyRename fs p.OriginalFilename p.RenamedFilename
      let r := execPlan dryRun renameFails fs2 rest
      (LogEvent.renameLog p.OriginalFilename p.RenamedFilename :: r.1, r.2.1, r.2.2)

/-- End-to-end run: plan, then execute; a planning abort executes nothing and
leaves the directory untouched. -/
def runProgram (files : List DirFile) (dryRun : Bool)
    (renameFails : String → String → Bool) : List LogEvent × List String × Bool :=
  match buildPlan files with
  | none => ([], files.map DirFile.name, true)
  | some pr => execPlan dryRun renameFails (files.map DirFile.name) pr.2

/-! ### Basic string and set lemmas -/

@[simp] theorem data_mk (l : List Char) : (String.mk l).data = l := rfl

theorem strData_append (a b : String) : (a ++ b).data = a.data ++ b.data := by
  cases a; cases b; rfl

@[simp] theorem strLength_mk (l : List Char) : (String.mk l).length = l.length := rfl

theorem strLength_append (a b : String) : (a ++ b).length = a.length + b.length := by
  show (a ++ b).data.length = a.data.length + b.data.length
  rw [strData_append, List.length_append]

theorem strEq_of_data (a b : String) (h : a.data = b.data) : a = b := by
  cases a; cases b; exact congrArg String.mk h

theorem digitChar_ne_special (n : Nat) :
    digitChar n ≠ '-' ∧ digitChar n ≠ '.' ∧ digitChar n ≠ '/' := by
  have hlt : n % 10 < 10 := Nat.mod_lt _ (by omega)
  have h : ∀ m, m < 10 →
      Char.ofNat (48 + m) ≠ '-' ∧ Char.ofNat (48 + m) ≠ '.' ∧ Char.ofNat (48 + m) ≠ '/' := by
    decide
  exact h (n % 10) hlt

theorem formatDateTime_length (t : Timestamp) : (formatDateTime t).length = 19 := rfl

theorem formatDateTime_no_dot_no_slash (t : Timestamp) :
    '.' ∉ (formatDateTime t).data ∧ '/' ∉ (formatDateTime t).data := by
  constructor <;>
  · intro hmem
    simp only [formatDateTime, data_mk, List.mem_cons, List.not_mem_nil, or_false] at hmem
    rcases hmem with h|h|h|h|h|h|h|h|h|h|h|h|h|h|h|h|h|h|h <;>
      first
        | exact (digitChar_ne_special _).2.1 h.symm
        | exact (digitChar_ne_special _).2.2 h.symm
        | exact absurd h (by decide)

theorem containsStr_iff (S : List String) (s : String) :
    containsStr S s = true ↔ s ∈ S := by
  induction S with
  | nil => simp [containsStr]
  | cons x xs ih =>
    by_cases h : x = s
    · subst h; simp [containsStr]
    · simp [containsStr, h, ih, Ne.symm h]

theorem containsStr_false_iff (S : List String) (s : String) :
    containsStr S s = false ↔ s ∉ S := by
  rw [← containsStr_iff]
  cases containsStr S s <;> simp

theorem containsStr_append_singleton (S : List String) (x s : String) :
    containsStr (S ++ [x]) s = true ↔ (containsStr S s = true ∨ s = x) := by
  rw [containsStr_iff, containsStr_iff, List.mem_append]
  simp

theorem setAdd_of_not_mem (S : List String) (s : String) (h : containsStr S s = false) :
    setAdd S s = S ++ [s] := by
  simp [setAdd, h]

theorem maxLen_ge (S : List String) (s : String) (h : containsStr S s = true) :
    s.length ≤ maxLen S := by
  induction S with
  | nil => simp [containsStr] at h
  | cons x xs ih =>
    simp only [containsStr] at h
    by_cases hx : x = s
    · subst hx; simp [maxLen, Nat.le_max_left]
    · rw [if_neg hx] at h
      exact le_trans (ih h) (by simp [maxLen, Nat.le_max_right])

/-! ### The formatter and the collision loop -/

theorem getFormattedFilename_eq (p : PhotoRename) (k : Nat) :
    p.GetFormattedFilename k
      = formatName p.PhotoCaptureTime (getExtension p.OriginalFilename) k := rfl

theorem formatName_length (t : Timestamp) (ext : String) (k : Nat) :
    (formatName t ext k).length = 19 + k + ext.length := by
  simp [formatName, strLength_append, formatDateTime_length]

theorem getFormattedFilename_length (p : PhotoRename) (k : Nat) :
    (p.GetFormattedFilename k).length
      = 19 + k + (getExtension p.OriginalFilename).length := by
  rw [getFormattedFilename_eq, formatName_length]

theorem formatName_inj (t : Timestamp) (ext : String) (a b : Nat)
    (h : formatName t ext a = formatName t ext b) : a = b := by
  have := congrArg String.length h
  rw [formatName_length, formatName_length] at this
  omega

theorem findDupeCount_free (S : List String) (p : PhotoRename) :
    ∀ (fuel k j : Nat), findDupeCount S p k fuel = some j →
      containsStr S (p.GetFormattedFilename j) = false := by
  intro fuel
  induction fuel with
  | zero => intro k j h; simp [findDupeCount] at h
  | succ fuel ih =>
    intro k j h
    by_cases hc : containsStr S (p.GetFormattedFilename k) = true
    · rw [findDupeCount, if_pos hc] at h
      exact ih (k + 1) j h
    · rw [findDupeCount, if_neg hc] at h
      cases h
      exact Bool.not_eq_true _ ▸ (Bool.eq_false_iff.mpr hc)

theorem findDupeCount_ex (S : List String) (p : PhotoRename) :
    ∀ (fuel k j : Nat), j < fuel →
      containsStr S (p.GetFormattedFilename (k + j)) = false →
      ∃ m, findDupeCount S p k fuel = some m := by
  intro fuel
  induction fuel with
  | zero => intro k j h; omega
  | succ fuel ih =>
    intro k j hj hfree
    by_cases hc : containsStr S (p.GetFormattedFilename k) = true
    · rcases j with _ | j'
      · rw [Nat.add_zero] at hfree; rw [hc] at hfree; cases hfree
      · have : containsStr S (p.GetFormattedFilename ((k + 1) + j')) = false := by
          have : (k + 1) + j' = k + (j' + 1) := by omega
          rw [this]; exact hfree
        obtain ⟨m, hm⟩ := ih (k + 1) j' (by omega) this
        exact ⟨m, by rw [findDupeCount, if_pos hc]; exact hm⟩
    · refine ⟨k, ?_⟩
      rw [findDupeCount, if_neg hc]

theorem free_past_maxLen (S : List String) (p : PhotoRename) :
    containsStr S (p.GetFormattedFilename (maxLen S + 1)) = false := by
  by_contra h
  have h' : containsStr S (p.GetFormattedFilename (maxLen S + 1)) = true := by
    cases hx : containsStr S (p.GetFormattedFilename (maxLen S + 1))
    · exact absurd hx h
    · rfl
  have hle := maxLen_ge S _ h'
  rw [getFormattedFilename_length] at hle
  omega

theorem resolveOne_spec (S : List String) (p : PhotoRename) :
    ∃ k, resolveOne S p
          = (S ++ [p.GetFormattedFilename k], { p with RenamedFilename := p.GetFormattedFilename k })
        ∧ containsStr S (p.GetFormattedFilename k) = false := by
  obtain ⟨m, hm⟩ := findDupeCount_ex S p (maxLen S + 2) 0 (maxLen S + 1)
    (by omega) (by rw [Nat.zero_add]; exact free_past_maxLen S p)
  have hfree := findDupeCount_free S p (maxLen S + 2) 0 m hm
  refine ⟨m, ?_, hfree⟩
  rw [resolveOne, hm]
  simp [setAdd_of_not_mem _ _ hfree]

theorem findDupeCount_eq_of (S : List String) (p : PhotoRename) :
    ∀ (fuel k d : Nat), d < fuel →
      (∀ j, j < d → containsStr S (p.GetFormattedFilename (k + j)) = true) →
      containsStr S (p.GetFormattedFilename (k + d)) = false →
      findDupeCount S p k fuel = some (k + d) := by
  intro fuel
  induction fuel with
  | zero => intro k d h; omega
  | succ fuel ih =>
    intro k d hd hbusy hfree
    rcases d with _ | d'
    · have hc : containsStr S (p.GetFormattedFilename k) = false := by
        rw [Nat.add_zero] at hfree; exact hfree
      rw [findDupeCount, if_neg (by rw [hc]; simp)]
      rfl
    · have hc : containsStr S (p.GetFormattedFilename k) = true := by
        have := hbusy 0 (by omega)
        rw [Nat.add_zero] at this; exact this
      rw [findDupeCount, if_pos hc]
      have hres := ih (k + 1) d' (by omega)
        (fun j hj => by
          have : (k + 1) + j = k + (j + 1) := by omega
          rw [this]; exact hbusy (j + 1) (by omega))
        (by
          have : (k + 1) + d' = k + (d' + 1) := by omega
          rw [this]; exact hfree)
      rw [hres]
      congr 1
      omega

theorem resolveAll_struct (rs : List PhotoRename) :
    ∀ S : List String,
      (resolveAll S rs).1 = S ++ (resolveAll S rs).2.map PhotoRename.RenamedFilename
      ∧ (resolveAll S rs).2.length = rs.length := by
  induction rs with
  | nil => intro S; simp [resolveAll]
  | cons p rest ih =>
    intro S
    obtain ⟨k, hq, hfree⟩ := resolveOne_spec S p
    have hres : resolveAll S (p :: rest)
        = ((resolveAll (S ++ [p.GetFormattedFilename k]) rest).1,
           { p with RenamedFilename := p.GetFormattedFilename k }
             :: (resolveAll (S ++ [p.GetFormattedFilename k]) rest).2) := by
      rw [resolveAll, hq]
    obtain ⟨ih1, ih2⟩ := ih (S ++ [p.GetFormattedFilename k])
    rw [hres]
    constructor
    · simpa [List.append_assoc] using ih1
    · simp [ih2]

theorem resolveAll_nodup (rs : List PhotoRename) :
    ∀ S : List String, S.Nodup → ((resolveAll S rs).1).Nodup := by
  induction rs with
  | nil => intro S h; simpa [resolveAll] using h
  | cons p rest ih =>
    intro S hS
    obtain ⟨k, hq, hfree⟩ := resolveOne_spec S p
    have hres : (resolveAll S (p :: rest)).1
        = (resolveAll (S ++ [p.GetFormattedFilename k]) rest).1 := by
      rw [resolveAll, hq]
    rw [hres]
    apply ih
    rw [List.nodup_append]
    refine ⟨hS, by simp, ?_⟩
    intro a ha hb
    simp only [List.mem_singleton] at hb
    subst hb
    exact (containsStr_false_iff _ _).mp hfree ha

/-! ### Extension stripping and dash trimming -/

@[simp] theorem mk_data (s : String) : String.mk s.data = s := by cases s; rfl

theorem extOf_nil_of_no_dot : ∀ cs : List Char, '.' ∉ cs → extOf cs = [] := by
  intro cs
  induction cs with
  | nil => intro _; rfl
  | cons c rest ih =>
    intro h
    have hc : ¬ c = '.' := by
      intro hh; subst hh; exact h (List.mem_cons_self _ _)
    have hrest : '.' ∉ rest := fun hm => h (List.mem_cons_of_mem _ hm)
    simp [extOf, ih hrest, hc]

theorem extOf_append_dot : ∀ (l cs : List Char), '.' ∉ l → '.' ∉ cs → '/' ∉ cs →
    extOf (l ++ '.' :: cs) = '.' :: cs := by
  intro l
  induction l with
  | nil =>
    intro cs _ hcs hslash
    simp [extOf, extOf_nil_of_no_dot cs hcs, hslash]
  | cons c l' ih =>
    intro cs hl hcs hslash
    have hl' : '.' ∉ l' := fun hm => hl (List.mem_cons_of_mem _ hm)
    simp [extOf, ih cs hl' hcs hslash]

theorem trimRightDashes_of_data (s : String) (l : List Char) (a : Char)
    (hs : s.data = l ++ [a]) (h : ¬ a = '-') : trimRightDashes s = s := by
  apply strEq_of_data
  rw [trimRightDashes, data_mk, hs, List.reverse_append]
  simp [List.dropWhile, h]

theorem trim_formatDateTime (t : Timestamp) :
    trimRightDashes (formatDateTime t) = formatDateTime t :=
  trimRightDashes_of_data _
    [digitChar (t.year / 1000), digitChar (t.year / 100), digitChar (t.year / 10),
     digitChar t.year, '-',
     digitChar (t.month / 10), digitChar t.month, '-',
     digitChar (t.day / 10), digitChar t.day, '_',
     digitChar (t.hour / 10), digitChar t.hour, '-',
     digitChar (t.minute / 10), digitChar t.minute, '-',
     digitChar (t.second / 10)]
    (digitChar t.second) rfl (digitChar_ne_special t.second).1

theorem formatName_zero_data (t : Timestamp) (ext : String) :
    (formatName t ext 0).data = (formatDateTime t).data ++ ext.data := by
  rw [formatName, strData_append, strData_append]
  simp

theorem getNameWithoutExtension_formatName (t : Timestamp) (ext : String)
    (hext : ext = "" ∨ (ext.data.head? = some '.' ∧ '.' ∉ ext.data.tail ∧ '/' ∉ ext.data.tail)) :
    getNameWithoutExtension (formatName t ext 0) = formatDateTime t := by
  obtain ⟨hnodot, _⟩ := formatDateTime_no_dot_no_slash t
  rcases hext with hnil | ⟨hhead, htdot, htslash⟩
  · subst hnil
    rw [getNameWithoutExtension, formatName_zero_data]
    rw [show ("" : String).data = [] from rfl, List.append_nil,
        extOf_nil_of_no_dot _ hnodot]
    apply strEq_of_data
    rw [data_mk]
    show List.take (formatDateTime t).data.length (formatDateTime t).data = _
    rw [List.take_length]
  · rcases hcs : ext.data with _ | ⟨c, cs⟩
    · rw [hcs] at hhead; cases hhead
    · rw [hcs] at hhead htdot htslash
      have hc : c = '.' := by
        have : (c :: cs).head? = some c := rfl
        rw [this] at hhead
        exact Option.some.inj hhead
      subst hc
      have htdot' : '.' ∉ cs := by simpa using htdot
      have htslash' : '/' ∉ cs := by simpa using htslash
      rw [getNameWithoutExtension, formatName_zero_data, hcs,
          extOf_append_dot _ _ hnodot htdot' htslash']
      have hlen : ((formatDateTime t).data ++ '.' :: cs).length - ('.' :: cs).length
          = (formatDateTime t).data.length := by
        simp [List.length_append]
      rw [hlen, List.take_left]

/-- C2: for every timestamp and every extension of the shape `filepath.Ext`
can produce (empty, or a single leading dot and no slash), the name built by
`format(t, ext, 0)` is recognized as already canonical for the same
timestamp `t`.  Confirmed. -/
theorem formatIsAlreadyCanonical_roundtrip (t : Timestamp) (ext : String)
    (hext : ext = "" ∨ (ext.data.head? = some '.' ∧ '.' ∉ ext.data.tail ∧ '/' ∉ ext.data.tail)) :
    PhotoRename.IsAlreadyFormatted
      { OriginalFilename := formatName t ext 0, PhotoCaptureTime := t,
        RenamedFilename := "" } = true := by
  have hd := getNameWithoutExtension_formatName t ext hext
  rw [PhotoRename.IsAlreadyFormatted]
  simp only [PhotoRename.GetFormattedDateTime, hd, trim_formatDateTime]
  simp

/-- Witness for C2 at `t = 2021-05-01 10:00:00` (local zone) and
`ext = ".jpg"`. -/
theorem formatIsAlreadyCanonical_roundtrip_witness :
    ((".jpg" : String) = "" ∨ ((".jpg" : String).data.head? = some '.'
        ∧ '.' ∉ (".jpg" : String).data.tail ∧ '/' ∉ (".jpg" : String).data.tail))
    ∧ PhotoRename.IsAlreadyFormatted
        { OriginalFilename := formatName ⟨2021, 5, 1, 10, 0, 0, TimeZoneInfo.localZone⟩ ".jpg" 0,
          PhotoCaptureTime := ⟨2021, 5, 1, 10, 0, 0, TimeZoneInfo.localZone⟩,
          RenamedFilename := "" } = true :=
  ⟨by decide,
   formatIsAlreadyCanonical_roundtrip ⟨2021, 5, 1, 10, 0, 0, TimeZoneInfo.localZone⟩ ".jpg"
     (by decide)⟩

/-! ### Concrete timestamps and directory listings used by several claims -/

/-- Capture time 2021-05-01 10:00:00, parsed without an offset (local zone). -/
def t0loc : Timestamp := ⟨2021, 5, 1, 10, 0, 0, TimeZoneInfo.localZone⟩

/-- Capture time 2021-05-01 10:00:00+00:00, parsed with an explicit offset. -/
def t0off : Timestamp := ⟨2021, 5, 1, 10, 0, 0, TimeZoneInfo.fixedOffset 0⟩

/-! ### C1: uniqueness of assigned names -/

/-- C1 (amended): after collision resolution the reserved-name set is exactly
the kept-as-is names followed by the photo entries' assigned names, and it is
duplicate-free — so no two PHOTO rename entries share an assigned name and no
photo entry's name collides with a kept-as-is name.  (The original claim also
covered sidecar entries; those are refuted by `sidecarDuplicateName_cex`.) -/
theorem photoAssignedNamesUnique (S : List String) (rs : List PhotoRename)
    (hS : S.Nodup) :
    (resolveAll S rs).1 = S ++ (resolveAll S rs).2.map PhotoRename.RenamedFilename
    ∧ (S ++ (resolveAll S rs).2.map PhotoRename.RenamedFilename).Nodup := by
  obtain ⟨h1, _⟩ := resolveAll_struct rs S
  refine ⟨h1, ?_⟩
  rw [← h1]
  exact resolveAll_nodup rs S hS

/-- Witness for C1's amended theorem at a concrete reserved set and two
pending entries with the same capture time. -/
theorem photoAssignedNamesUnique_witness :
    (["keep.jpg"] : List String).Nodup
    ∧ ((resolveAll ["keep.jpg"]
          [{ OriginalFilename := "a.jpg", PhotoCaptureTime := t0loc, RenamedFilename := "" },
           { OriginalFilename := "b.jpg", PhotoCaptureTime := t0loc, RenamedFilename := "" }]).1
        = ["keep.jpg"] ++ (resolveAll ["keep.jpg"]
          [{ OriginalFilename := "a.jpg", PhotoCaptureTime := t0loc, RenamedFilename := "" },
           { OriginalFilename := "b.jpg", PhotoCaptureTime := t0loc, RenamedFilename := "" }]).2.map
            PhotoRename.RenamedFilename
       ∧ (["keep.jpg"] ++ (resolveAll ["keep.jpg"]
          [{ OriginalFilename := "a.jpg", PhotoCaptureTime := t0loc, RenamedFilename := "" },
           { OriginalFilename := "b.jpg", PhotoCaptureTime := t0loc, RenamedFilename := "" }]).2.map
            PhotoRename.RenamedFilename).Nodup) :=
  ⟨by decide, photoAssignedNamesUnique _ _ (by decide)⟩

/-- Directory listing with two same-timestamp photos of different image
extensions, each accompanied by a sidecar: both sidecars are planned to the
same target name. -/
def filesDupSidecar : List DirFile :=
  [⟨"a.cr2", ExifProcResult.records [some "2021:05:01 10:00:00"]⟩,
   ⟨"a.xmp", ExifProcResult.cmdError⟩,
   ⟨"b.jpg", ExifProcResult.records [some "2021:05:01 10:00:00"]⟩,
   ⟨"b.xmp", ExifProcResult.cmdError⟩]

/-- Counterexample to C1 as stated: the final plan for `filesDupSidecar`
contains two sidecar entries assigned the identical name
`2021-05-01_10-00-00.xmp`, so the assigned names of the whole plan are not
pairwise distinct. -/
theorem sidecarDuplicateName_cex :
    (buildPlan filesDupSidecar).map (fun pr => pr.2.map PhotoRename.RenamedFilename)
      = some ["2021-05-01_10-00-00.cr2", "2021-05-01_10-00-00.jpg",
              "2021-05-01_10-00-00.xmp", "2021-05-01_10-00-00.xmp"]
    ∧ ¬ (["2021-05-01_10-00-00.cr2", "2021-05-01_10-00-00.jpg",
          "2021-05-01_10-00-00.xmp", "2021-05-01_10-00-00.xmp"] : List String).Nodup := by
  decide

/-! ### C3: suffix progression for same-timestamp batches -/

theorem resolveAll_progression (t : Timestamp) (ext : String) :
    ∀ (rs : List PhotoRename) (S : List String) (m : Nat),
      (∀ p ∈ rs, p.PhotoCaptureTime = t ∧ getExtension p.OriginalFilename = ext) →
      (∀ k, k < m → containsStr S (formatName t ext k) = true) →
      (∀ k, m ≤ k → k < m + rs.length → containsStr S (formatName t ext k) = false) →
      (resolveAll S rs).2.map PhotoRename.RenamedFilename
        = (List.range rs.length).map (fun i => formatName t ext (m + i)) := by
  intro rs
  induction rs with
  | nil => intro S m _ _ _; simp [resolveAll]
  | cons p rest ih =>
    intro S m hall hbusy hfree
    obtain ⟨hpt, hpe⟩ := hall p (List.mem_cons_self _ _)
    have hfmt : ∀ k, p.GetFormattedFilename k = formatName t ext k := by
      intro k; rw [getFormattedFilename_eq, hpt, hpe]
    have hm_lt : m < maxLen S + 2 := by
      rcases Nat.eq_zero_or_pos m with hm0 | hmpos
      · omega
      · have hb := hbusy (m - 1) (by omega)
        have hle := maxLen_ge S _ hb
        rw [formatName_length] at hle
        omega
    have hlen_pos : m < m + (p :: rest).length := by simp
    have hfd : findDupeCount S p 0 (maxLen S + 2) = some m := by
      have h := findDupeCount_eq_of S p (maxLen S + 2) 0 m hm_lt
        (fun j hj => by
          have hz : (0 : Nat) + j = j := Nat.zero_add j
          rw [hfmt, hz]; exact hbusy j hj)
        (by
          have hz : (0 : Nat) + m = m := Nat.zero_add m
          rw [hfmt, hz]; exact hfree m (le_refl m) hlen_pos)
      simpa using h
    have hfr : containsStr S (p.GetFormattedFilename m) = false := by
      rw [hfmt]; exact hfree m (le_refl m) hlen_pos
    have hfr2 : containsStr S (formatName t ext m) = false := by
      rw [← hfmt m]; exact hfr
    have hres : resolveAll S (p :: rest)
        = ((resolveAll (S ++ [formatName t ext m]) rest).1,
           { p with RenamedFilename := formatName t ext m }
             :: (resolveAll (S ++ [formatName t ext m]) rest).2) := by
      rw [resolveAll, resolveOne, hfd]
      simp [setAdd_of_not_mem _ _ hfr2, hfmt]
    have hbusy' : ∀ k, k < m + 1 →
        containsStr (S ++ [formatName t ext m]) (formatName t ext k) = true := by
      intro k hk
      rcases Nat.lt_or_ge k m with h | h
      · exact (containsStr_append_singleton _ _ _).mpr (Or.inl (hbusy k h))
      · have hkm : k = m := by omega
        subst hkm
        exact (containsStr_append_singleton _ _ _).mpr (Or.inr rfl)
    have hfree' : ∀ k, m + 1 ≤ k → k < (m + 1) + rest.length →
        containsStr (S ++ [formatName t ext m]) (formatName t ext k) = false := by
      intro k h1 h2
      cases hx : containsStr (S ++ [formatName t ext m]) (formatName t ext k) with
      | false => rfl
      | true =>
        rcases (containsStr_append_singleton _ _ _).mp hx with hmem | heq
        · have hf := hfree k (by omega) (by simp; omega)
          rw [hf] at hmem; cases hmem
        · have := formatName_inj t ext k m heq
          omega
    have hall' : ∀ p' ∈ rest, p'.PhotoCaptureTime = t ∧ getExtension p'.OriginalFilename = ext :=
      fun p' hp' => hall p' (List.mem_cons_of_mem _ hp')
    have hih := ih (S ++ [formatName t ext m]) (m + 1) hall' hbusy' hfree'
    rw [hres]
    simp only [List.map_cons]
    rw [hih]
    rw [List.length_cons, List.range_succ_eq_map, List.map_cons, List.map_map]
    congr 1
    apply List.map_congr_left
    intro i _
    simp only [Function.comp]
    congr 1
    omega

/-- C3 (amended): for a pending list in which every entry shares the capture
timestamp `t` AND the original extension `ext`, with no name of the canonical
family pre-reserved, collision resolution assigns the names with duplicate
suffix lengths exactly `0, 1, ..., N-1` in discovery order.  (The claim as
stated, with only the timestamp shared, is refuted by
`mixedExtensionSuffix_cex`.) -/
theorem sameTimestampSuffixProgression (t : Timestamp) (ext : String)
    (S : List String) (rs : List PhotoRename)
    (hall : ∀ p ∈ rs, p.PhotoCaptureTime = t ∧ getExtension p.OriginalFilename = ext)
    (hfree : ∀ k, k < rs.length → containsStr S (formatName t ext k) = false) :
    (resolveAll S rs).2.map PhotoRename.RenamedFilename
      = (List.range rs.length).map (formatName t ext) := by
  have h := resolveAll_progression t ext rs S 0 hall
    (fun k hk => absurd hk (by omega))
    (fun k _ hk => hfree k (by omega))
  rw [h]
  apply List.map_congr_left
  intro i _
  show formatName t ext (0 + i) = formatName t ext i
  congr 1
  omega

/-- Two pending same-timestamp `.jpg` entries (used by the C3 witness). -/
def rsSameJpg : List PhotoRename :=
  [{ OriginalFilename := "IMG_0001.jpg", PhotoCaptureTime := t0loc, RenamedFilename := "" },
   { OriginalFilename := "IMG_0002.jpg", PhotoCaptureTime := t0loc, RenamedFilename := "" }]

/-- Witness for C3's amended theorem: two same-timestamp `.jpg` entries after
a non-matching reserved name get suffixes of length 0 and 1. -/
theorem sameTimestampSuffixProgression_witness :
    (∀ p ∈ rsSameJpg,
       p.PhotoCaptureTime = t0loc ∧ getExtension p.OriginalFilename = ".jpg")
    ∧ (∀ k, k < rsSameJpg.length →
        containsStr ["keep.jpg"] (formatName t0loc ".jpg" k) = false)
    ∧ (resolveAll ["keep.jpg"] rsSameJpg).2.map PhotoRename.RenamedFilename
      = (List.range rsSameJpg.length).map (formatName t0loc ".jpg") :=
  ⟨by decide, by decide,
   sameTimestampSuffixProgression t0loc ".jpg" ["keep.jpg"] rsSameJpg (by decide) (by decide)⟩

/-- Counterexample to C3 as stated: two entries sharing only the capture
timestamp (extensions `.jpg` and `.cr2`) and nothing pre-reserved both get a
duplicate-suffix of length 0 — not lengths 0 and 1. -/
theorem mixedExtensionSuffix_cex :
    (resolveAll []
        [{ OriginalFilename := "a.jpg", PhotoCaptureTime := t0loc, RenamedFilename := "" },
         { OriginalFilename := "b.cr2", PhotoCaptureTime := t0loc, RenamedFilename := "" }]).2.map
      PhotoRename.RenamedFilename
      = ["2021-05-01_10-00-00.jpg", "2021-05-01_10-00-00.cr2"]
    ∧ (resolveAll []
        [{ OriginalFilename := "a.jpg", PhotoCaptureTime := t0loc, RenamedFilename := "" },
         { OriginalFilename := "b.cr2", PhotoCaptureTime := t0loc, RenamedFilename := "" }]).2.map
      PhotoRename.RenamedFilename
      ≠ ["2021-05-01_10-00-00.jpg", "2021-05-01_10-00-00-.cr2"] := by
  decide

/-! ### C4: the spec's three-file scenario -/

/-- The spec's scenario listing, in `os.ReadDir`'s sorted order: the
already-canonical file sorts first (`2` < `I` in ASCII). -/
def filesScenario : List DirFile :=
  [⟨"2021-05-01_10-00-00.jpg", ExifProcResult.records [some "2021:05:01 10:00:00"]⟩,
   ⟨"IMG_0001.jpg", ExifProcResult.records [some "2021:05:01 10:00:00+00:00"]⟩,
   ⟨"IMG_0002.jpg", ExifProcResult.records [some "2021:05:01 10:00:00"]⟩]

/-- Counterexample to C4 as stated: the two IMG files are NOT assigned
`2021-05-01_10-00-00.jpg` and `2021-05-01_10-00-00-.jpg` — the unsuffixed
name is already reserved by the kept canonical file, so they receive the
suffix-1 and suffix-2 names instead. -/
theorem canonicalScenarioClaim_cex :
    (buildPlan filesScenario).map (fun pr => pr.2.map PhotoRename.RenamedFilename)
      = some ["2021-05-01_10-00-00-.jpg", "2021-05-01_10-00-00--.jpg"]
    ∧ (buildPlan filesScenario).map (fun pr => pr.2.map PhotoRename.RenamedFilename)
      ≠ some ["2021-05-01_10-00-00.jpg", "2021-05-01_10-00-00-.jpg"] := by
  decide

/-- C4 (amended): in the scenario the third (already canonical) file is
reserved as-is and the two IMG files are assigned
`2021-05-01_10-00-00-.jpg` and `2021-05-01_10-00-00--.jpg` in discovery
order. -/
theorem canonicalScenarioPlan :
    buildPlan filesScenario
      = some (["2021-05-01_10-00-00.jpg", "2021-05-01_10-00-00-.jpg",
               "2021-05-01_10-00-00--.jpg"],
              [{ OriginalFilename := "IMG_0001.jpg", PhotoCaptureTime := t0off,
                 RenamedFilename := "2021-05-01_10-00-00-.jpg" },
               { OriginalFilename := "IMG_0002.jpg", PhotoCaptureTime := t0loc,
                 RenamedFilename := "2021-05-01_10-00-00--.jpg" }]) := by
  decide

/-! ### C5: size of the reserved set -/

theorem setAdd_length_of_not_mem (S : List String) (s : String)
    (h : containsStr S s = false) : (setAdd S s).length = S.length + 1 := by
  rw [setAdd_of_not_mem _ _ h, List.length_append, List.length_cons, List.length_nil]

theorem classifyAll_count :
    ∀ (files : List DirFile) (S : List String) (rs : List PhotoRename)
      (out : List String × List PhotoRename),
      (∀ s ∈ S, s ∉ files.map DirFile.name) →
      (files.map DirFile.name).Nodup →
      classifyAll S rs files = some out →
      out.1.length + out.2.length
          = S.length + rs.length + (files.filter (fun f => isPictureFile f.name)).length
        ∧ ∀ s ∈ out.1, s ∈ S ∨ s ∈ files.map DirFile.name := by
  intro files
  induction files with
  | nil =>
    intro S rs out _ _ h
    rw [classifyAll] at h
    cases h
    simp
  | cons f rest ih =>
    intro S rs out hdisj hnd hcl
    have hfS : containsStr S f.name = false := by
      rw [containsStr_false_iff]
      intro hmem
      exact hdisj f.name hmem (by simp)
    have hfrest : f.name ∉ rest.map DirFile.name := by
      have := hnd
      rw [List.map_cons, List.nodup_cons] at this
      exact this.1
    have hndrest : (rest.map DirFile.name).Nodup := by
      have := hnd
      rw [List.map_cons, List.nodup_cons] at this
      exact this.2
    have hdisjAdd : ∀ s ∈ setAdd S f.name, s ∉ rest.map DirFile.name := by
      intro s hs
      rw [setAdd_of_not_mem _ _ hfS, List.mem_append] at hs
      rcases hs with hs | hs
      · intro hm
        exact hdisj s hs (by rw [List.map_cons]; exact List.mem_cons_of_mem _ hm)
      · rw [List.mem_singleton] at hs
        subst hs
        exact hfrest
    have hdisjS : ∀ s ∈ S, s ∉ rest.map DirFile.name := by
      intro s hs hm
      exact hdisj s hs (by rw [List.map_cons]; exact List.mem_cons_of_mem _ hm)
    rw [classifyAll] at hcl
    by_cases hpic : isPictureFile f.name = true
    · cases hdt : getPhotoDateTime f.exif with
      | fatal =>
        have hstep : classifyStep S rs f = none := by
          rw [classifyStep, if_pos hpic, hdt]
        rw [hstep] at hcl
        cases hcl
      | recoverable =>
        have hstep : classifyStep S rs f = some (setAdd S f.name, rs) := by
          rw [classifyStep, if_pos hpic, hdt]
        rw [hstep] at hcl
        have hcl' : classifyAll (setAdd S f.name) rs rest = some out := hcl
        obtain ⟨hcount, hsub⟩ := ih (setAdd S f.name) rs out hdisjAdd hndrest hcl'
        constructor
        · rw [hcount, setAdd_length_of_not_mem _ _ hfS, List.filter_cons, if_pos hpic]
          simp
          omega
        · intro s hs
          rcases hsub s hs with hmem | hmem
          · rw [setAdd_of_not_mem _ _ hfS, List.mem_append] at hmem
            rcases hmem with hmem | hmem
            · exact Or.inl hmem
            · rw [List.mem_singleton] at hmem
              subst hmem
              exact Or.inr (by simp)
          · exact Or.inr (by rw [List.map_cons]; exact List.mem_cons_of_mem _ hmem)
      | ok t =>
        by_cases hfmtd :
            PhotoRename.IsAlreadyFormatted
              { OriginalFilename := f.name, PhotoCaptureTime := t, RenamedFilename := "" } = true
        · have hstep : classifyStep S rs f = some (setAdd S f.name, rs) := by
            rw [classifyStep, if_pos hpic, hdt]
            simp [hfmtd]
          rw [hstep] at hcl
          have hcl' : classifyAll (setAdd S f.name) rs rest = some out := hcl
          obtain ⟨hcount, hsub⟩ := ih (setAdd S f.name) rs out hdisjAdd hndrest hcl'
          constructor
          · rw [hcount, setAdd_length_of_not_mem _ _ hfS, List.filter_cons, if_pos hpic]
            simp
            omega
          · intro s hs
            rcases hsub s hs with hmem | hmem
            · rw [setAdd_of_not_mem _ _ hfS, List.mem_append] at hmem
              rcases hmem with hmem | hmem
              · exact Or.inl hmem
              · rw [List.mem_singleton] at hmem
                subst hmem
                exact Or.inr (by simp)
            · exact Or.inr (by rw [List.map_cons]; exact List.mem_cons_of_mem _ hmem)
        · have hstep : classifyStep S rs f
              = some (S, rs ++ [{ OriginalFilename := f.name, PhotoCaptureTime := t,
                                  RenamedFilename := "" }]) := by
            rw [classifyStep, if_pos hpic, hdt]
            simp [hfmtd]
          rw [hstep] at hcl
          have hcl' : classifyAll S
              (rs ++ [{ OriginalFilename := f.name, PhotoCaptureTime := t,
                        RenamedFilename := "" }]) rest = some out := hcl
          obtain ⟨hcount, hsub⟩ := ih S
            (rs ++ [{ OriginalFilename := f.name, PhotoCaptureTime := t, RenamedFilename := "" }])
            out hdisjS hndrest hcl'
          constructor
          · rw [hcount, List.filter_cons, if_pos hpic]
            simp
            omega
          · intro s hs
            rcases hsub s hs with hmem | hmem
            · exact Or.inl hmem
            · exact Or.inr (by rw [List.map_cons]; exact List.mem_cons_of_mem _ hmem)
    · have hstep : classifyStep S rs f = some (S, rs) := by
        rw [classifyStep, if_neg hpic]
      rw [hstep] at hcl
      have hcl' : classifyAll S rs rest = some out := hcl
      obtain ⟨hcount, hsub⟩ := ih S rs out hdisjS hndrest hcl'
      constructor
      · rw [hcount, List.filter_cons, if_neg hpic]
      · intro s hs
        rcases hsub s hs with hmem | hmem
        · exact Or.inl hmem
        · exact Or.inr (by rw [List.map_cons]; exact List.mem_cons_of_mem _ hmem)

/-- C5 (amended): after collision resolution, the reserved-name set contains
exactly one entry per PHOTO-CANDIDATE file — its size is the number of files
whose extension is whitelisted, not the number of all input files.  (The
original claim, counting every input file, is refuted by
`reservedSetSizeNonCandidate_cex`: non-candidates are never reserved.) -/
theorem reservedSetSizeEqualsCandidates (files : List DirFile) (S : List String)
    (rs : List PhotoRename)
    (hnd : (files.map DirFile.name).Nodup)
    (hcl : classify files = some (S, rs)) :
    (resolveAll S rs).1.length
      = (files.filter (fun f => isPictureFile f.name)).length := by
  obtain ⟨hcount, _⟩ := classifyAll_count files [] [] (S, rs) (by simp) hnd hcl
  obtain ⟨h1, h2⟩ := resolveAll_struct rs S
  rw [h1, List.length_append, List.length_map, h2]
  simp at hcount
  omega

/-- Witness for C5's amended theorem: one non-candidate plus one photo
candidate yields a reserved set of size 1. -/
theorem reservedSetSizeEqualsCandidates_witness :
    (([⟨"notes.txt", ExifProcResult.cmdError⟩,
       ⟨"a.jpg", ExifProcResult.records [some "2021:05:01 10:00:00"]⟩] :
        List DirFile).map DirFile.name).Nodup
    ∧ classify [⟨"notes.txt", ExifProcResult.cmdError⟩,
        ⟨"a.jpg", ExifProcResult.records [some "2021:05:01 10:00:00"]⟩]
      = some ([], [{ OriginalFilename := "a.jpg", PhotoCaptureTime := t0loc,
                     RenamedFilename := "" }])
    ∧ (resolveAll []
        [{ OriginalFilename := "a.jpg", PhotoCaptureTime := t0loc,
           RenamedFilename := "" }]).1.length
      = (([⟨"notes.txt", ExifProcResult.cmdError⟩,
           ⟨"a.jpg", ExifProcResult.records [some "2021:05:01 10:00:00"]⟩] :
            List DirFile).filter (fun f => isPictureFile f.name)).length :=
  ⟨by decide, by decide,
   reservedSetSizeEqualsCandidates _ _ _ (by decide) (by decide)⟩

/-- Counterexample to C5 as stated: a directory with one non-candidate file
produces an empty reserved set, not a set of size 1. -/
theorem reservedSetSizeNonCandidate_cex :
    classify [⟨"notes.txt", ExifProcResult.cmdError⟩] = some ([], [])
    ∧ (resolveAll [] []).1.length
      ≠ ([⟨"notes.txt", ExifProcResult.cmdError⟩] : List DirFile).length := by
  decide

/-! ### C6: error taxonomy of metadata extraction -/

/-- C6 (amended): per src/main.go, only the ABSENCE of the `CreateDate` field
(or an empty record list, or an unparsable date string) is the recoverable
per-file condition — the file is reserved under its original name and the
batch continues; a failed/non-zero `exiftool` invocation or malformed JSON
output goes through `checkErr` and aborts the whole run.  (The original
claim, calling a non-zero or malformed process result recoverable, is
refuted by `cmdErrorFatal_cex`.) -/
theorem metadataFailureHandling (S : List String) (rs : List PhotoRename) (f : DirFile)
    (hpic : isPictureFile f.name = true) :
    (getPhotoDateTime f.exif = DateTimeResult.recoverable →
      classifyStep S rs f = some (setAdd S f.name, rs))
    ∧ (getPhotoDateTime f.exif = DateTimeResult.fatal → classifyStep S rs f = none) := by
  constructor <;> intro h <;> rw [classifyStep, if_pos hpic, h]

/-- Witness for C6's amended theorem: a record list without a `CreateDate`
is recoverable, and the original name is reserved. -/
theorem metadataFailureHandling_witness :
    isPictureFile "a.jpg" = true
    ∧ getPhotoDateTime (ExifProcResult.records []) = DateTimeResult.recoverable
    ∧ classifyStep [] [] ⟨"a.jpg", ExifProcResult.records []⟩
        = some (setAdd [] "a.jpg", []) :=
  ⟨by decide, by decide,
   (metadataFailureHandling [] [] ⟨"a.jpg", ExifProcResult.records []⟩ (by decide)).1
     (by decide)⟩

/-- Counterexample to C6 as stated: a photo whose `exiftool` invocation fails
(non-zero status) makes classification abort the whole run (`none`) instead
of reserving `a.jpg` and continuing. -/
theorem cmdErrorFatal_cex :
    classify [⟨"a.jpg", ExifProcResult.cmdError⟩] = none
    ∧ classify [⟨"a.jpg", ExifProcResult.cmdError⟩] ≠ some (["a.jpg"], []) := by
  decide

/-! ### C7: the swallowed os.Rename error -/

/-- C7 (code bug): at a plan entry whose `os.Rename` fails (`renameFails`
true), the executor still logs the rename, leaves the directory unchanged,
and continues without aborting — the error assigned to `err` at
src/main.go:288 is never checked, contradicting the spec's "any filesystem
error on rename is fatal / no error is silently swallowed". -/
theorem renameErrorSwallowed :
    execPlan false (fun _ _ => true) ["IMG_0001.jpg"]
        [{ OriginalFilename := "IMG_0001.jpg", PhotoCaptureTime := t0loc,
           RenamedFilename := "2021-05-01_10-00-00.jpg" }]
      = ([LogEvent.renameLog "IMG_0001.jpg" "2021-05-01_10-00-00.jpg"],
         ["IMG_0001.jpg"], false) := by
  decide

/-! ### C8: sidecar target conflicts abort during planning -/

theorem sidecarLoop_none_of_conflict (fs : List String) :
    ∀ (rs : List PhotoRename) (r : PhotoRename), r ∈ rs →
      containsStr fs (metadataNameFor r.OriginalFilename) = true →
      containsStr fs (metadataNameFor r.RenamedFilename) = true →
      sidecarLoop fs rs = none := by
  intro rs
  induction rs with
  | nil => intro r h; cases h
  | cons p rest ih =>
    intro r hr h1 h2
    rcases List.mem_cons.mp hr with heq | hmem
    · subst heq
      simp [sidecarLoop, h1, h2]
    · have hrest := ih r hmem h1 h2
      by_cases hm : containsStr fs (metadataNameFor p.OriginalFilename) = true
      · by_cases hn : containsStr fs (metadataNameFor p.RenamedFilename) = true
        · simp [sidecarLoop, hm, hn]
        · simp [sidecarLoop, hm, hn, hrest]
      · simp [sidecarLoop, hm, hrest]

/-- C8 (amended): if some resolved photo rename has its own sidecar on disk
AND the sidecar with the photo's target base name also already exists on
disk, the whole run aborts during planning — nothing is logged, the
directory is untouched, no rename is ever executed.  (The original claim
omitted the "photo has its own sidecar" premise of src/main.go lines
232-241; without it there is no abort, see
`targetSidecarNoSourceNoAbort_cex`.) -/
theorem sidecarConflictAbortsPlanning (files : List DirFile) (S : List String)
    (rs : List PhotoRename) (r : PhotoRename) (dr : Bool) (rf : String → String → Bool)
    (hcl : classify files = some (S, rs))
    (hr : r ∈ (resolveAll S rs).2)
    (hmeta : containsStr (files.map DirFile.name) (metadataNameFor r.OriginalFilename) = true)
    (htgt : containsStr (files.map DirFile.name) (metadataNameFor r.RenamedFilename) = true) :
    runProgram files dr rf = ([], files.map DirFile.name, true) := by
  have hsc := sidecarLoop_none_of_conflict (files.map DirFile.name)
    (resolveAll S rs).2 r hr hmeta htgt
  have hbp : buildPlan files = none := by
    rw [buildPlan, hcl]
    simp [hsc]
  rw [runProgram, hbp]

/-- Listing for the C8 witness: a photo with its sidecar, plus the
target-name sidecar already present. -/
def filesSidecarConflict : List DirFile :=
  [⟨"2021-05-01_10-00-00.xmp", ExifProcResult.cmdError⟩,
   ⟨"IMG_0001.jpg", ExifProcResult.records [some "2021:05:01 10:00:00"]⟩,
   ⟨"IMG_0001.xmp", ExifProcResult.cmdError⟩]

/-- Witness for C8's amended theorem on `filesSidecarConflict`. -/
theorem sidecarConflictAbortsPlanning_witness :
    classify filesSidecarConflict
      = some ([], [{ OriginalFilename := "IMG_0001.jpg", PhotoCaptureTime := t0loc,
                     RenamedFilename := "" }])
    ∧ ({ OriginalFilename := "IMG_0001.jpg", PhotoCaptureTime := t0loc,
         RenamedFilename := "2021-05-01_10-00-00.jpg" } : PhotoRename)
        ∈ (resolveAll [] [{ OriginalFilename := "IMG_0001.jpg", PhotoCaptureTime := t0loc,
                            RenamedFilename := "" }]).2
    ∧ runProgram filesSidecarConflict false (fun _ _ => false)
        = ([], filesSidecarConflict.map DirFile.name, true) :=
  ⟨by decide, by decide,
   sidecarConflictAbortsPlanning filesSidecarConflict []
     [{ OriginalFilename := "IMG_0001.jpg", PhotoCaptureTime := t0loc, RenamedFilename := "" }]
     { OriginalFilename := "IMG_0001.jpg", PhotoCaptureTime := t0loc,
       RenamedFilename := "2021-05-01_10-00-00.jpg" }
     false (fun _ _ => false) (by decide) (by decide) (by decide) (by decide)⟩

/-- Listing with the TARGET-name sidecar on disk but no source sidecar for
the photo. -/
def filesTargetOnly : List DirFile :=
  [⟨"2021-05-01_10-00-00.xmp", ExifProcResult.cmdError⟩,
   ⟨"IMG_0001.jpg", ExifProcResult.records [some "2021:05:01 10:00:00"]⟩]

/-- Counterexample to C8 as stated: a sidecar carrying the photo's target
base name exists on disk, yet — because the photo has no sidecar of its own
— planning completes and the real run executes the photo rename without any
abort. -/
theorem targetSidecarNoSourceNoAbort_cex :
    containsStr (filesTargetOnly.map DirFile.name)
        (metadataNameFor "2021-05-01_10-00-00.jpg") = true
    ∧ (buildPlan filesTargetOnly).map (fun pr => pr.2.map PhotoRename.RenamedFilename)
        = some ["2021-05-01_10-00-00.jpg"]
    ∧ runProgram filesTargetOnly false (fun _ _ => false)
        = ([LogEvent.renameLog "IMG_0001.jpg" "2021-05-01_10-00-00.jpg"],
           ["2021-05-01_10-00-00.jpg", "2021-05-01_10-00-00.xmp"], false) := by
  decide

/-! ### C9: dry-run behaviour -/

/-- C9 (amended): dry-run mode never mutates the directory, whatever the
plan; and provided no planned target name already exists on disk (and all
names are non-empty), it logs a dry-run line for every entry of the plan and
does not abort.  (The original claim — that it logs every entry a REAL run
would have executed — fails when an entry's target equals an earlier entry's
original name, see `dryRunLogsDiverge_cex`.) -/
theorem dryRunNoMutation (plan : List PhotoRename) (fs : List String)
    (rf : String → String → Bool) :
    (execPlan true rf fs plan).2.1 = fs
    ∧ ((∀ p ∈ plan, p.RenamedFilename.length ≠ 0 ∧ containsStr fs p.RenamedFilename = false) →
        (execPlan true rf fs plan).1
            = plan.map (fun p => LogEvent.dryRunLog p.OriginalFilename p.RenamedFilename)
          ∧ (execPlan true rf fs plan).2.2 = false) := by
  induction plan with
  | nil => simp [execPlan]
  | cons p rest ih =>
    constructor
    · by_cases h0 : p.RenamedFilename.length = 0
      · simp [execPlan, h0]
      · by_cases hc : containsStr fs p.RenamedFilename = true
        · simp [execPlan, h0, hc]
        · simp [execPlan, h0, hc, ih.1]
    · intro hall
      obtain ⟨hp0, hpc⟩ := hall p (List.mem_cons_self _ _)
      have hrest := ih.2 (fun q hq => hall q (List.mem_cons_of_mem _ hq))
      simp [execPlan, hp0, hpc, hrest.1, hrest.2]

/-- One-entry plan for the C9 witness. -/
def planDry : List PhotoRename :=
  [{ OriginalFilename := "IMG.jpg", PhotoCaptureTime := t0loc,
     RenamedFilename := "2021-05-01_10-00-00.jpg" }]

/-- Witness for C9's amended theorem. -/
theorem dryRunNoMutation_witness :
    (∀ p ∈ planDry, p.RenamedFilename.length ≠ 0
        ∧ containsStr ["IMG.jpg"] p.RenamedFilename = false)
    ∧ (execPlan true (fun _ _ => false) ["IMG.jpg"] planDry).2.1 = ["IMG.jpg"]
    ∧ (execPlan true (fun _ _ => false) ["IMG.jpg"] planDry).1
        = planDry.map (fun p => LogEvent.dryRunLog p.OriginalFilename p.RenamedFilename)
    ∧ (execPlan true (fun _ _ => false) ["IMG.jpg"] planDry).2.2 = false :=
  ⟨by decide,
   (dryRunNoMutation planDry ["IMG.jpg"] (fun _ _ => false)).1,
   ((dryRunNoMutation planDry ["IMG.jpg"] (fun _ _ => false)).2 (by decide)).1,
   ((dryRunNoMutation planDry ["IMG.jpg"] (fun _ _ => false)).2 (by decide)).2⟩

/-- A plan in which the second entry's target name equals the first entry's
original name (the planner can produce this: pending originals are not
reserved). -/
def planDiverge : List PhotoRename :=
  [{ OriginalFilename := "2021-05-01_10-00-00.jpg",
     PhotoCaptureTime := ⟨2022, 1, 1, 0, 0, 0, TimeZoneInfo.localZone⟩,
     RenamedFilename := "2022-01-01_00-00-00.jpg" },
   { OriginalFilename := "IMG.jpg", PhotoCaptureTime := t0loc,
     RenamedFilename := "2021-05-01_10-00-00.jpg" }]

/-- Counterexample to C9 as stated: on `planDiverge` a real run executes and
logs BOTH entries (the first rename frees the second entry's target), while
the dry run — against the unchanged directory — aborts at the second entry
and logs only the first.  The dry run therefore does not log every entry a
real run would have executed. -/
theorem dryRunLogsDiverge_cex :
    execPlan false (fun _ _ => false) ["2021-05-01_10-00-00.jpg", "IMG.jpg"] planDiverge
      = ([LogEvent.renameLog "2021-05-01_10-00-00.jpg" "2022-01-01_00-00-00.jpg",
          LogEvent.renameLog "IMG.jpg" "2021-05-01_10-00-00.jpg"],
         ["2021-05-01_10-00-00.jpg", "2022-01-01_00-00-00.jpg"], false)
    ∧ execPlan true (fun _ _ => false) ["2021-05-01_10-00-00.jpg", "IMG.jpg"] planDiverge
      = ([LogEvent.dryRunLog "2021-05-01_10-00-00.jpg" "2022-01-01_00-00-00.jpg"],
         ["2021-05-01_10-00-00.jpg", "IMG.jpg"], true) := by
  decide

/-! ### C10: every executed entry has a non-empty assigned name -/

theorem resolveAll_renamed_len (rs : List PhotoRename) :
    ∀ (S : List String), ∀ p' ∈ (resolveAll S rs).2, 19 ≤ p'.RenamedFilename.length := by
  induction rs with
  | nil => intro S p' h; simp [resolveAll] at h
  | cons p rest ih =>
    intro S p' hp'
    obtain ⟨k, hq, _⟩ := resolveOne_spec S p
    have hres : resolveAll S (p :: rest)
        = ((resolveAll (S ++ [p.GetFormattedFilename k]) rest).1,
           { p with RenamedFilename := p.GetFormattedFilename k }
             :: (resolveAll (S ++ [p.GetFormattedFilename k]) rest).2) := by
      rw [resolveAll, hq]
    rw [hres] at hp'
    rcases List.mem_cons.mp hp' with heq | hmem
    · subst heq
      show 19 ≤ (p.GetFormattedFilename k).length
      rw [getFormattedFilename_length]
      omega
    · exact ih _ p' hmem

theorem metadataNameFor_length (s : String) :
    (metadataNameFor s).length = (getNameWithoutExtension s).length + 4 := by
  rw [metadataNameFor, strLength_append, strLength_append]
  show (getNameWithoutExtension s).length + 1 + 3 = (getNameWithoutExtension s).length + 4
  omega

theorem sidecarLoop_renamed_len (fs : List String) :
    ∀ (rs ms : List PhotoRename), sidecarLoop fs rs = some ms →
      ∀ m ∈ ms, m.RenamedFilename.length ≠ 0 := by
  intro rs
  induction rs with
  | nil =>
    intro ms h m hm
    rw [sidecarLoop] at h
    cases h
    cases hm
  | cons p rest ih =>
    intro ms h m hm
    by_cases hmf : containsStr fs (metadataNameFor p.OriginalFilename) = true
    · by_cases hnf : containsStr fs (metadataNameFor p.RenamedFilename) = true
      · simp [sidecarLoop, hmf, hnf] at h
      · cases hrec : sidecarLoop fs rest with
        | none => simp [sidecarLoop, hmf, hnf, hrec] at h
        | some ms' =>
          simp only [sidecarLoop, hmf, hnf, hrec] at h
          simp at h
          rw [← h] at hm
          rcases List.mem_cons.mp hm with heq | hmem
          · subst heq
            show (metadataNameFor p.RenamedFilename).length ≠ 0
            rw [metadataNameFor_length]
            omega
          · exact ih ms' hrec m hmem
    · simp only [sidecarLoop, hmf] at h
      simp at h
      exact ih ms h m hm

/-- C10: every entry of a successfully built plan — photo renames and
sidecar renames alike — carries a non-empty assigned name, so the
executor's fatal empty-name branch is unreachable.  Confirmed. -/
theorem execEntriesNonEmptyName (files : List DirFile) (S : List String)
    (plan : List PhotoRename) (h : buildPlan files = some (S, plan)) :
    ∀ p ∈ plan, p.RenamedFilename.length ≠ 0 := by
  rw [buildPlan] at h
  cases hcl : classify files with
  | none => rw [hcl] at h; cases h
  | some pr =>
    obtain ⟨S0, rs⟩ := pr
    rw [hcl] at h
    cases hsc : sidecarLoop (files.map DirFile.name) (resolveAll S0 rs).2 with
    | none => simp [hsc] at h
    | some ms =>
      simp only [hsc] at h
      have h2 : (resolveAll S0 rs).2 ++ ms = plan :=
        congrArg Prod.snd (Option.some.inj h)
      intro p hp
      rw [← h2] at hp
      rcases List.mem_append.mp hp with hm | hm
      · have := resolveAll_renamed_len rs S0 p hm
        omega
      · exact sidecarLoop_renamed_len _ _ ms hsc p hm

/-- One-photo listing for the C10 witness. -/
def filesOnePhoto : List DirFile :=
  [⟨"a.jpg", ExifProcResult.records [some "2021:05:01 10:00:00"]⟩]

/-- Witness for C10 on `filesOnePhoto`. -/
theorem execEntriesNonEmptyName_witness :
    buildPlan filesOnePhoto
      = some (["2021-05-01_10-00-00.jpg"],
              [{ OriginalFilename := "a.jpg", PhotoCaptureTime := t0loc,
                 RenamedFilename := "2021-05-01_10-00-00.jpg" }])
    ∧ ∀ p ∈ ([{ OriginalFilename := "a.jpg", PhotoCaptureTime := t0loc,
                RenamedFilename := "2021-05-01_10-00-00.jpg" }] : List PhotoRename),
        p.RenamedFilename.length ≠ 0 :=
  ⟨by decide,
   execEntriesNonEmptyName filesOnePhoto ["2021-05-01_10-00-00.jpg"]
     [{ OriginalFilename := "a.jpg", PhotoCaptureTime := t0loc,
        RenamedFilename := "2021-05-01_10-00-00.jpg" }] (by decide)⟩

end Photorename
